import Mathlib

/-!
Verification of the backtesting engine (`src/backtest.py`, class `Backtester`).

The engine is modelled by a shallow embedding:
* pandas floating-point cells are modelled by `FV` (NaN, +inf, -inf, or a rational);
* a price DataFrame is a `Table`: a shared row count plus named columns of
  optional rationals (a `none` cell is a missing value / NaN);
* each pipeline stage of `Backtester.run_backtest` is a Lean function, and the
  whole run is `run_backtest`, returning an `Outcome` whose abort constructors
  correspond to the early `return`s of the Python code.
-/

namespace Backtest

/-- A pandas/NumPy floating-point value: NaN, +infinity, -infinity, or a finite
number (modelled as a rational; the concrete values in play are exact). -/
inductive FV where
  | nan
  | pinf
  | ninf
  | num (q : ℚ)
deriving DecidableEq, Repr

/-- IEEE-style division, as produced by `data / data.iloc[0]` in pandas:
dividing by zero yields NaN for a zero numerator and a signed infinity
otherwise; NaN propagates. -/
def FV.div : FV → FV → FV
  | nan, _ => nan
  | pinf, nan => nan
  | ninf, nan => nan
  | num _, nan => nan
  | num a, num b =>
      if b = 0 then (if a = 0 then nan else if 0 < a then pinf else ninf)
      else num (a / b)
  | num _, pinf => num 0
  | num _, ninf => num 0
  | pinf, num b => if 0 ≤ b then pinf else ninf
  | ninf, num b => if 0 ≤ b then ninf else pinf
  | pinf, pinf => nan
  | pinf, ninf => nan
  | ninf, pinf => nan
  | ninf, ninf => nan

/-- Multiplication by the positive constant 100 (the `* 100` of the
normalization step): infinities keep their sign, NaN propagates. -/
def FV.mul100 : FV → FV
  | nan => nan
  | pinf => pinf
  | ninf => ninf
  | num a => num (a * 100)

/-- IEEE-style subtraction (used for `... - 100` and the outperformance
difference). -/
def FV.sub : FV → FV → FV
  | nan, _ => nan
  | pinf, nan => nan
  | ninf, nan => nan
  | num _, nan => nan
  | num a, num b => num (a - b)
  | pinf, pinf => nan
  | ninf, ninf => nan
  | pinf, _ => pinf
  | ninf, _ => ninf
  | num _, pinf => ninf
  | num _, ninf => pinf

/-- IEEE-style strict greater-than (`strategy_return > benchmark_return`):
any comparison with NaN is false. -/
def FV.gt : FV → FV → Bool
  | nan, _ => false
  | pinf, nan => false
  | ninf, nan => false
  | num _, nan => false
  | pinf, pinf => false
  | pinf, _ => true
  | ninf, _ => false
  | num _, pinf => false
  | num _, ninf => true
  | num a, num b => decide (b < a)

/-- Is this value NaN? -/
def FV.isNan : FV → Bool
  | nan => true
  | _ => false

/-- The rational carried by a finite value (0 for the non-finite ones; only
applied to finite values). -/
def FV.toRat : FV → ℚ
  | num q => q
  | _ => 0

/-- pandas `mean(axis=1)` over one row with the default `skipna=True`:
NaN entries are dropped; if nothing remains the mean is NaN; a surviving
+infinity (resp. -infinity) makes the sum and hence the mean that infinity,
and both together make it NaN; otherwise the arithmetic mean of the finite
values. -/
def fvMean (l : List FV) : FV :=
  let fs := l.filter (fun v => !v.isNan)
  if fs = [] then .nan
  else if FV.pinf ∈ fs then (if FV.ninf ∈ fs then .nan else .pinf)
  else if FV.ninf ∈ fs then .ninf
  else .num ((fs.map FV.toRat).sum / fs.length)

/-- A named column of a DataFrame, with cell type `α`. -/
structure ColG (α : Type) where
  sym : String
  vals : List α
deriving DecidableEq, Repr

/-- A price column: cells are optional rationals (`none` = missing / NaN). -/
abbrev PCol := ColG (Option ℚ)

/-- A normalized column: cells are floating-point values. -/
abbrev NCol := ColG FV

/-- A single-level price DataFrame: a shared row count (the date index) and
named columns. -/
structure Table where
  nrows : ℕ
  cols : List PCol
deriving DecidableEq, Repr

/-- Align a column with the shared row index: cell `i` is the column's `i`-th
stored value, missing (NaN) where the column has no entry. In a real
DataFrame every column already has exactly `nrows` cells. -/
def padCol (n : ℕ) (c : PCol) : PCol :=
  ⟨c.sym, (List.range n).map (fun i => c.vals.getD i none)⟩

/-- Forward fill with an accumulator: each missing cell is replaced by the
last value seen so far (`acc` before the list starts). -/
def ffillAux (acc : Option ℚ) : List (Option ℚ) → List (Option ℚ)
  | [] => []
  | some v :: rest => some v :: ffillAux (some v) rest
  | none :: rest => acc :: ffillAux acc rest

/-- pandas `Series.ffill()`. -/
def ffillCol (l : List (Option ℚ)) : List (Option ℚ) := ffillAux none l

/-- pandas `Series.bfill()`: forward fill of the reversed series. -/
def bfillCol (l : List (Option ℚ)) : List (Option ℚ) := (ffillAux none l.reverse).reverse

/-- The cleaning stage (`data.dropna(axis=1, how='all')` then
`data.ffill().bfill()`): align columns with the row index, drop the columns
with no data at all, forward-fill then backward-fill the rest. -/
def cleanCols (n : ℕ) (cols : List PCol) : List PCol :=
  ((cols.map (padCol n)).filter (fun c => c.vals.any Option.isSome)).map
    (fun c => ⟨c.sym, bfillCol (ffillCol c.vals)⟩)

/-- A DataFrame cell as a floating-point value: missing is NaN. -/
def ofOpt : Option ℚ → FV
  | none => .nan
  | some q => .num q

/-- Normalization of one column (`(data / data.iloc[0]) * 100` restricted to
that column): every cell is divided by the cell in row 0 of the same column
and multiplied by 100, with IEEE semantics for zero and missing values. -/
def normCol (l : List (Option ℚ)) : List FV :=
  l.map (fun v => ((ofOpt v).div (ofOpt (l.getD 0 none))).mul100)

/-- Normalization of the whole cleaned table. -/
def normTable (cols : List PCol) : List NCol :=
  cols.map (fun c => ⟨c.sym, normCol c.vals⟩)

/-- Column selection by name (`normalized_data[s]`): the first column named
`s` (the empty series if there is none; in every reachable use the column is
present). -/
def lookupVals : List NCol → String → List FV
  | [], _ => []
  | c :: rest, s => if c.sym == s then c.vals else lookupVals rest s

/-- The equal-weight strategy series
(`normalized_data[valid_tickers].mean(axis=1)`): for each row of the shared
index, the skip-NaN mean across the selected columns. -/
def strategySeries (n : ℕ) (sel : List (List FV)) : List FV :=
  (List.range n).map (fun i => fvMean (sel.map (fun c => c.getD i FV.nan)))

/-- The result of one `run_backtest` invocation. The first six constructors
are the early `return`s of the Python code, in source order; `ok` is the path
that reaches the report and the chart. -/
inductive Outcome where
  | noTickers
  | fetchError
  | emptyFetch
  | noPriceField
  | normError
  | noValidTickers
  | ok (strategy : List FV) (bench : Option (List FV)) (strategyReturn : FV)
      (benchReturn : Option FV) (success : Option Bool) (outperformance : Option FV)
deriving DecidableEq, Repr

/-- The pipeline from the selected price table onward: clean, normalize
(where `data.iloc[0]` on a zero-row table raises, caught as the normalization
error), restrict to the candidate tickers present in the cleaned data,
simulate the equal-weight strategy, and compare against the `^NSEI` benchmark
when its column survived. -/
def backtestCore (tickers : List String) (t : Table) : Outcome :=
  let cleaned := cleanCols t.nrows t.cols
  if t.nrows = 0 then .normError
  else
    let normed := normTable cleaned
    let valid := tickers.filter (fun s => cleaned.any (fun c => c.sym == s))
    if valid = [] then .noValidTickers
    else
      let sel := valid.map (lookupVals normed)
      let strat := strategySeries t.nrows sel
      let sr := (strat.getLastD .nan).sub (.num 100)
      if normed.any (fun c => c.sym == "^NSEI") then
        let bcol := lookupVals normed "^NSEI"
        let br := (bcol.getLastD .nan).sub (.num 100)
        .ok strat (some bcol) sr (some br) (some (sr.gt br)) (some (sr.sub br))
      else
        .ok strat none sr none none none

/-- The raw fetched data (`yf.download` result) in its layered
(two-level-column) shape: the shared row count and, per level-0 price field,
the per-symbol columns under it. -/
structure RawData where
  nrows : ℕ
  fields : List (String × List PCol)
deriving DecidableEq, Repr

/-- The level-0 column names of the raw table
(`data_raw.columns.get_level_values(0)` up to multiplicity). -/
def RawData.colNames (r : RawData) : List String := r.fields.map Prod.fst

/-- pandas `DataFrame.empty`: true when either axis has length 0 (no rows, or no
columns at all). -/
def RawData.isEmpty (r : RawData) : Bool :=
  r.nrows == 0 || (r.fields.map (fun p => p.2.length)).sum == 0

/-- The price-field selection applied to a list of candidate field names:
prefer `Adj Close`; otherwise fall back to `Close` with a non-fatal advisory
(the returned Bool); fail if neither is present. -/
def selectPriceField (fields : List String) : Option (String × Bool) :=
  if fields.contains "Adj Close" then some ("Adj Close", false)
  else if fields.contains "Close" then some ("Close", true)
  else none

/-- The shape of the raw table's column axis: flat (one level of field names,
single-symbol downloads) or layered (a price-field level above a symbol
level). -/
inductive RawShape where
  | flat (fields : List String)
  | layered (fields : List String)

/-- The target-column determination of `run_backtest`, which branches on
`isinstance(data_raw.columns, pd.MultiIndex)` and runs the same
`Adj Close` / `Close` preference in each branch. -/
def targetColOf : RawShape → Option (String × Bool)
  | .layered fs =>
      if fs.contains "Adj Close" then some ("Adj Close", false)
      else if fs.contains "Close" then some ("Close", true)
      else none
  | .flat fs =>
      if fs.contains "Adj Close" then some ("Adj Close", false)
      else if fs.contains "Close" then some ("Close", true)
      else none

/-- Extraction of the sub-table under one level-0 field
(`data_raw[target_col]`): the columns grouped under the first occurrence of
that field name. -/
def fieldCols : List (String × List PCol) → String → List PCol
  | [], _ => []
  | p :: rest, f => if p.1 == f then p.2 else fieldCols rest f

/-- The whole `Backtester.run_backtest` on layered data: abort on an empty ticker list;
the fetch is an input (`none` = the download raised); abort on an empty
fetch result; select the price field or abort; then run the core pipeline on
the sub-table under the selected field. -/
def run_backtest (tickers : List String) (fetched : Option RawData) : Outcome :=
  if tickers = [] then .noTickers
  else
    match fetched with
    | none => .fetchError
    | some raw =>
      if raw.isEmpty then .emptyFetch
      else
        match selectPriceField raw.colNames with
        | none => .noPriceField
        | some (f, _) =>
          backtestCore tickers ⟨raw.nrows, fieldCols raw.fields f⟩

/-- The persisted buy list handed to `load_tickers`: either the file is
missing (`FileNotFoundError`) or it parsed into named string columns. -/
inductive CsvLoad where
  | fileMissing
  | loaded (cols : List (String × List String))

/-- Lookup of a named column in the parsed buy list (`df[name]` for a
DataFrame with unique column names). -/
def csvColumn : List (String × List String) → String → Option (List String)
  | [], _ => none
  | p :: rest, name => if p.1 == name then some p.2 else csvColumn rest name

/-- The loader `Backtester.load_tickers`: the `ticker` column if present, else the
`Ticker` column, else the empty list; a missing file also yields the empty
list. -/
def load_tickers : CsvLoad → List String
  | .fileMissing => []
  | .loaded cols =>
    match csvColumn cols "ticker" with
    | some l => l
    | none =>
      match csvColumn cols "Ticker" with
      | some l => l
      | none => []

/-- Does this outcome write the chart artifact (`plt.savefig`)? Only the
path that completes the pipeline does. -/
def writesChart : Outcome → Bool
  | .ok _ _ _ _ _ _ => true
  | _ => false

/-- Does this outcome print the results report (the `--- RESULTS ---`
block)? Only the path that completes the pipeline does. -/
def printsReport : Outcome → Bool
  | .ok _ _ _ _ _ _ => true
  | _ => false

/-- The diagnostic message printed on each abort path (none on the success
path, which prints the report instead). -/
def diag : Outcome → Option String
  | .noTickers => some "No tickers to backtest."
  | .fetchError => some "Data download critical error"
  | .emptyFetch => some "No data fetched for backtest. Check internet connection."
  | .noPriceField => some "Error: Neither Adj Close nor Close found in data."
  | .normError => some "Error during normalization"
  | .noValidTickers => some "No valid stock data found to calculate strategy."
  | .ok _ _ _ _ _ _ => none

/-- The strategy-side observables of an outcome: the strategy series and the
strategy return when the run completed, nothing otherwise. -/
def stratPart : Outcome → Option (List FV × FV)
  | .ok s _ sr _ _ _ => some (s, sr)
  | _ => none

/-! Per-constructor equations for the `FV` operations, so that `simp` can
evaluate the pipeline. -/

@[simp] theorem FV.div_nan_left (x : FV) : FV.div .nan x = .nan := by cases x <;> rfl

@[simp] theorem FV.div_num_num (a b : ℚ) :
    FV.div (.num a) (.num b) =
      if b = 0 then (if a = 0 then .nan else if 0 < a then .pinf else .ninf)
      else .num (a / b) := rfl

@[simp] theorem FV.div_num_nan (a : ℚ) : FV.div (.num a) .nan = .nan := rfl

@[simp] theorem FV.div_pinf_num (b : ℚ) :
    FV.div .pinf (.num b) = if 0 ≤ b then .pinf else .ninf := rfl

@[simp] theorem FV.div_ninf_num (b : ℚ) :
    FV.div .ninf (.num b) = if 0 ≤ b then .ninf else .pinf := rfl

@[simp] theorem FV.mul100_nan : FV.mul100 .nan = .nan := rfl

@[simp] theorem FV.mul100_pinf : FV.mul100 .pinf = .pinf := rfl

@[simp] theorem FV.mul100_ninf : FV.mul100 .ninf = .ninf := rfl

@[simp] theorem FV.mul100_num (a : ℚ) : FV.mul100 (.num a) = .num (a * 100) := rfl

@[simp] theorem FV.sub_nan_left (x : FV) : FV.sub .nan x = .nan := by cases x <;> rfl

@[simp] theorem FV.sub_num_num (a b : ℚ) : FV.sub (.num a) (.num b) = .num (a - b) := rfl

@[simp] theorem FV.sub_num_nan (a : ℚ) : FV.sub (.num a) .nan = .nan := rfl

@[simp] theorem FV.sub_pinf_num (b : ℚ) : FV.sub .pinf (.num b) = .pinf := rfl

@[simp] theorem FV.sub_ninf_num (b : ℚ) : FV.sub .ninf (.num b) = .ninf := rfl

@[simp] theorem FV.sub_num_pinf (a : ℚ) : FV.sub (.num a) .pinf = .ninf := rfl

@[simp] theorem FV.sub_num_ninf (a : ℚ) : FV.sub (.num a) .ninf = .pinf := rfl

@[simp] theorem FV.gt_num_num (a b : ℚ) : FV.gt (.num a) (.num b) = decide (b < a) := rfl

@[simp] theorem FV.gt_nan_left (x : FV) : FV.gt .nan x = false := by cases x <;> rfl

@[simp] theorem FV.gt_num_nan (a : ℚ) : FV.gt (.num a) .nan = false := rfl

@[simp] theorem FV.gt_pinf_num (b : ℚ) : FV.gt .pinf (.num b) = true := rfl

@[simp] theorem FV.gt_pinf_nan : FV.gt .pinf .nan = false := rfl

@[simp] theorem FV.gt_num_pinf (a : ℚ) : FV.gt (.num a) .pinf = false := rfl

@[simp] theorem FV.gt_num_ninf (a : ℚ) : FV.gt (.num a) .ninf = true := rfl

@[simp] theorem FV.isNan_nan : FV.isNan .nan = true := rfl

@[simp] theorem FV.isNan_pinf : FV.isNan .pinf = false := rfl

@[simp] theorem FV.isNan_ninf : FV.isNan .ninf = false := rfl

@[simp] theorem FV.isNan_num (a : ℚ) : FV.isNan (.num a) = false := rfl

@[simp] theorem FV.toRat_num (a : ℚ) : FV.toRat (.num a) = a := rfl

@[simp] theorem FV.toRat_pinf : FV.toRat .pinf = 0 := rfl

@[simp] theorem FV.toRat_ninf : FV.toRat .ninf = 0 := rfl

@[simp] theorem ofOpt_none : ofOpt none = .nan := rfl

@[simp] theorem ofOpt_some (q : ℚ) : ofOpt (some q) = .num q := rfl

/-- Claim C1: on the concrete input with candidates `["AAA", "BBB"]` and the
2-row fetched history `AAA = [100, 110]`, `BBB = [50, 60]`,
`^NSEI = [200, 190]`, the pipeline normalizes `AAA` to `[100, 110]` and `BBB`
to `[100, 120]`, computes the strategy series `[100, 115]` with strategy
return `15`, normalizes the benchmark to `[100, 95]` with benchmark return
`-5`, and reports success with outperformance `20`. -/
theorem claim_C1_concrete_scenario :
    normCol [some 100, some 110] = [.num 100, .num 110] ∧
    normCol [some 50, some 60] = [.num 100, .num 120] ∧
    run_backtest ["AAA", "BBB"]
        (some ⟨2, [("Adj Close",
          [⟨"AAA", [some 100, some 110]⟩, ⟨"BBB", [some 50, some 60]⟩,
           ⟨"^NSEI", [some 200, some 190]⟩])]⟩) =
      .ok [.num 100, .num 115] (some [.num 100, .num 95]) (.num 15)
        (some (.num (-5))) (some true) (some (.num 20)) := by
  refine ⟨?_, ?_, ?_⟩ <;>
    norm_num +decide [run_backtest, backtestCore, cleanCols, padCol, ffillCol, bfillCol,
      ffillAux, normTable, normCol, lookupVals, strategySeries, fvMean, fieldCols,
      RawData.isEmpty, RawData.colNames, selectPriceField,
      List.getLastD_cons, List.getLastD_nil, List.range, List.range.loop, List.getD]

/-- Claim C2, counterexample: on a cleaned table whose column `AAA` has the
zero first value `0` (history `[0, 10]`) next to `BBB = [100, 110]`, the
pipeline does not exclude `AAA` from the equal-weight mean: the `+inf`
produced by `10 / 0` propagates into the strategy series, whose second entry
is `+inf` instead of the `110` that excluding `AAA` would give. -/
theorem claim_C2_counterexample :
    run_backtest ["AAA", "BBB"]
        (some ⟨2, [("Adj Close",
          [⟨"AAA", [some 0, some 10]⟩, ⟨"BBB", [some 100, some 110]⟩])]⟩) =
      .ok [.num 100, .pinf] none .pinf none none none ∧
    FV.pinf ∈ [FV.num 100, FV.pinf] ∧
    [FV.num 100, FV.pinf] ≠ [FV.num 100, FV.num 110] := by
  refine ⟨?_, by simp, by simp⟩
  norm_num +decide [run_backtest, backtestCore, cleanCols, padCol, ffillCol, bfillCol,
    ffillAux, normTable, normCol, lookupVals, strategySeries, fvMean, fieldCols,
    RawData.isEmpty, RawData.colNames, selectPriceField,
    List.getLastD_cons, List.getLastD_nil, List.range, List.range.loop, List.getD]

/-- Claim C2, amended: a column whose first-row value is zero is not excluded
from the aggregate; its cells are divided by zero with the naive floating
semantics, so a zero price becomes NaN (which the skip-NaN row mean does
drop) and a nonzero price becomes a signed infinity, and a `+inf` entry in a
row with no `-inf` entry makes the row's equal-weight mean `+inf`, i.e. the
infinity propagates into the StrategySeries. -/
theorem claim_C2_amended (l : List (Option ℚ)) (hl : l.getD 0 none = some 0)
    (row : List FV) (hp : FV.pinf ∈ row) (hn : FV.ninf ∉ row) :
    normCol l = l.map (fun v =>
      match v with
      | none => FV.nan
      | some q => if q = 0 then FV.nan else if 0 < q then FV.pinf else FV.ninf) ∧
    fvMean row = FV.pinf := by
  constructor
  · unfold normCol
    rw [hl]
    refine List.map_congr_left ?_
    intro v _
    cases v with
    | none => simp
    | some q =>
      by_cases hq : q = 0
      · simp [hq]
      · by_cases h0 : 0 < q
        · simp [hq, h0]
        · simp [hq, h0]
  · have hpf : FV.pinf ∈ row.filter (fun v => !v.isNan) := by
      simp [List.mem_filter, hp]
    have hnf : FV.ninf ∉ row.filter (fun v => !v.isNan) := by
      simp [List.mem_filter, hn]
    have hne : row.filter (fun v => !v.isNan) ≠ [] := by
      intro h
      rw [h] at hpf
      exact absurd hpf (List.not_mem_nil _)
    simp only [fvMean]
    rw [if_neg hne, if_pos hpf, if_neg hnf]

/-- Witness for the amended Claim C2 at the concrete column `[0, 10]` and the
concrete strategy row `[+inf, 110]`. -/
theorem claim_C2_amended_witness :
    normCol [some 0, some 10] = [FV.nan, FV.pinf] ∧
    fvMean [FV.pinf, FV.num 110] = FV.pinf := by
  have h := claim_C2_amended [some 0, some 10] (by simp)
    [FV.pinf, FV.num 110] (by simp) (by simp)
  refine ⟨?_, h.2⟩
  rw [h.1]
  norm_num

/-- Claim C9, counterexample: `load_tickers` returns the ticker column
verbatim, so a buy list whose ticker column repeats a symbol loads to a list
with a duplicate — the loaded list is not a sequence of unique symbols. -/
theorem claim_C9_counterexample :
    load_tickers (.loaded [("ticker", ["AAA", "AAA"])]) = ["AAA", "AAA"] ∧
    ¬ (["AAA", "AAA"] : List String).Nodup := by
  constructor
  · rfl
  · decide

/-- Claim C9, amended: the loaded ticker list is exactly the entries of the
file's `ticker` column (else the `Ticker` column) in their original order,
duplicates preserved rather than removed; a failed load or a missing column
yields the empty list, and with an empty ticker list the pipeline aborts
with `noTickers` whatever the fetch would have returned (so before any
fetch). -/
theorem claim_C9_load_and_abort (cols : List (String × List String)) (l : List String) :
    (csvColumn cols "ticker" = some l → load_tickers (.loaded cols) = l) ∧
    (csvColumn cols "ticker" = none → csvColumn cols "Ticker" = some l →
      load_tickers (.loaded cols) = l) ∧
    (csvColumn cols "ticker" = none → csvColumn cols "Ticker" = none →
      load_tickers (.loaded cols) = []) ∧
    (load_tickers .fileMissing = []) ∧
    (∀ fetched : Option RawData, run_backtest [] fetched = .noTickers) := by
  refine ⟨?_, ?_, ?_, rfl, ?_⟩
  · intro h
    simp [load_tickers, h]
  · intro h h'
    simp [load_tickers, h, h']
  · intro h h'
    simp [load_tickers, h, h']
  · intro fetched
    simp [run_backtest]

/-- Witness for the amended Claim C9: the duplicated buy list loads verbatim
and the empty ticker list aborts before the fetch. -/
theorem claim_C9_load_and_abort_witness :
    load_tickers (.loaded [("ticker", ["AAA", "AAA"])]) = ["AAA", "AAA"] ∧
    run_backtest [] none = .noTickers := by
  have h := claim_C9_load_and_abort [("ticker", ["AAA", "AAA"])] ["AAA", "AAA"]
  exact ⟨h.1 (by decide), h.2.2.2.2 none⟩

/-- Claim C4: for a column whose first value `f` is a real non-zero price,
normalization rescales every price `p` to `p / f * 100`, so the first
normalized entry is exactly `100`; and the normalized table carries exactly
that series for the column. -/
theorem claim_C4_normalization_base_100 (cols : List PCol) (c : PCol)
    (hc : c ∈ cols) (f : ℚ) (rest : List ℚ)
    (hv : c.vals = some f :: rest.map some) (hf : f ≠ 0) :
    normCol c.vals = FV.num 100 :: rest.map (fun p => FV.num (p / f * 100)) ∧
    (⟨c.sym, FV.num 100 :: rest.map (fun p => FV.num (p / f * 100))⟩ : NCol) ∈
      normTable cols := by
  have hnorm : normCol c.vals = FV.num 100 :: rest.map (fun p => FV.num (p / f * 100)) := by
    rw [hv]
    unfold normCol
    simp only [List.getD_cons_zero, List.map_cons, List.map_map, ofOpt_some]
    rw [FV.div_num_num, if_neg hf, div_self hf]
    norm_num
    intro p _
    rw [if_neg hf, FV.mul100_num]
  refine ⟨hnorm, ?_⟩
  rw [← hnorm]
  exact List.mem_map.mpr ⟨c, hc, rfl⟩

/-! Lemmas about forward/backward filling, leading to Claim C7. -/

/-- The value carried by a forward fill after traversing `l`, starting from
`acc`. -/
def carry (acc : Option ℚ) : List (Option ℚ) → Option ℚ
  | [] => acc
  | some v :: rest => carry (some v) rest
  | none :: rest => carry acc rest

theorem ffillAux_append (acc : Option ℚ) (l₁ l₂ : List (Option ℚ)) :
    ffillAux acc (l₁ ++ l₂) = ffillAux acc l₁ ++ ffillAux (carry acc l₁) l₂ := by
  induction l₁ generalizing acc with
  | nil => simp [ffillAux, carry]
  | cons a rest ih =>
    cases a with
    | some v => simp [ffillAux, carry, ih]
    | none => simp [ffillAux, carry, ih]

theorem carry_some_isSome (v : ℚ) (l : List (Option ℚ)) :
    (carry (some v) l).isSome = true := by
  induction l generalizing v with
  | nil => rfl
  | cons a rest ih =>
    cases a with
    | some w => exact ih w
    | none => exact ih v

theorem carry_isSome_of_any (acc : Option ℚ) (l : List (Option ℚ))
    (h : l.any Option.isSome = true) : (carry acc l).isSome = true := by
  induction l generalizing acc with
  | nil => simp at h
  | cons a rest ih =>
    cases a with
    | some w => exact carry_some_isSome w rest
    | none =>
      simp only [List.any_cons, Option.isSome_none, Bool.false_or] at h
      exact ih acc h

theorem ffillAux_all_isSome_of_acc (acc : Option ℚ) (l : List (Option ℚ))
    (hacc : acc.isSome = true) : ∀ x ∈ ffillAux acc l, x.isSome = true := by
  induction l generalizing acc with
  | nil => simp [ffillAux]
  | cons a rest ih =>
    cases a with
    | some v =>
      intro x hx
      rcases List.mem_cons.mp hx with h | h
      · rw [h]; rfl
      · exact ih (some v) rfl x h
    | none =>
      intro x hx
      rcases List.mem_cons.mp hx with h | h
      · rw [h]; exact hacc
      · exact ih acc hacc x h

theorem ffillAux_all_isSome_of_all (acc : Option ℚ) (l : List (Option ℚ))
    (hl : ∀ x ∈ l, x.isSome = true) : ∀ x ∈ ffillAux acc l, x.isSome = true := by
  induction l generalizing acc with
  | nil => simp [ffillAux]
  | cons a rest ih =>
    cases a with
    | some v =>
      intro x hx
      rcases List.mem_cons.mp hx with h | h
      · rw [h]; rfl
      · exact ih (some v) (fun y hy => hl y (List.mem_cons_of_mem _ hy)) x h
    | none =>
      exact absurd (hl none (List.mem_cons_self _ _)) (by simp)

theorem ffillAux_any_isSome (acc : Option ℚ) (l : List (Option ℚ))
    (h : l.any Option.isSome = true) : (ffillAux acc l).any Option.isSome = true := by
  induction l generalizing acc with
  | nil => simp at h
  | cons a rest ih =>
    cases a with
    | some v => simp [ffillAux]
    | none =>
      simp only [List.any_cons, Option.isSome_none, Bool.false_or] at h
      simp only [ffillAux, List.any_cons]
      simp [ih acc h]

theorem bfillCol_all_isSome_of_all (l : List (Option ℚ))
    (hl : ∀ x ∈ l, x.isSome = true) : ∀ x ∈ bfillCol l, x.isSome = true := by
  intro x hx
  rw [bfillCol, List.mem_reverse] at hx
  exact ffillAux_all_isSome_of_all none l.reverse
    (fun y hy => hl y (List.mem_reverse.mp hy)) x hx

/-- The key cleaning fact: if a column has at least one real value, forward
fill followed by backward fill leaves no missing cell. -/
theorem fill_all_isSome (l : List (Option ℚ)) (h : l.any Option.isSome = true) :
    ∀ x ∈ bfillCol (ffillCol l), x.isSome = true := by
  induction l with
  | nil => simp at h
  | cons a rest ih =>
    cases a with
    | some v =>
      refine bfillCol_all_isSome_of_all _ ?_
      intro x hx
      rw [ffillCol, ffillAux] at hx
      rcases List.mem_cons.mp hx with h' | h'
      · rw [h']; rfl
      · exact ffillAux_all_isSome_of_acc (some v) rest rfl x h'
    | none =>
      simp only [List.any_cons, Option.isSome_none, Bool.false_or] at h
      intro x hx
      rw [ffillCol, ffillAux] at hx
      rw [show ffillAux none rest = ffillCol rest from rfl] at hx
      rw [bfillCol, List.mem_reverse, List.reverse_cons, ffillAux_append] at hx
      rcases List.mem_append.mp hx with h' | h'
      · have : ∀ y ∈ bfillCol (ffillCol rest), y.isSome = true := ih h
        have hx' : x ∈ bfillCol (ffillCol rest) := by
          rw [bfillCol, List.mem_reverse]
          exact h'
        exact this x hx'
      · have hc : (carry none (ffillCol rest).reverse).isSome = true := by
          refine carry_isSome_of_any none _ ?_
          rw [List.any_reverse]
          exact ffillAux_any_isSome none rest h
        simp only [ffillAux, List.mem_cons, List.not_mem_nil, or_false] at h'
        rw [h']
        exact hc

/-- Claim C7: every column retained by the cleaning stage (drop all-missing
columns, forward-fill, backward-fill) has no missing value left in any cell. -/
theorem claim_C7_clean_no_missing (n : ℕ) (cols : List PCol) (c : PCol)
    (hc : c ∈ cleanCols n cols) : ∀ v ∈ c.vals, v.isSome = true := by
  rcases List.mem_map.mp hc with ⟨c₀, hc₀, rfl⟩
  have hany : c₀.vals.any Option.isSome = true := (List.mem_filter.mp hc₀).2
  exact fill_all_isSome c₀.vals hany

/-- Witness for Claim C7: the column `[none, 1, none]` survives cleaning and
every cell of its cleaned form is present. -/
theorem claim_C7_clean_no_missing_witness :
    (⟨"AAA", [some 1, some 1, some 1]⟩ : PCol) ∈
      cleanCols 3 [⟨"AAA", [none, some 1, none]⟩] ∧
    ∀ v ∈ (⟨"AAA", [some 1, some 1, some 1]⟩ : PCol).vals, v.isSome = true := by
  have hmem : (⟨"AAA", [some 1, some 1, some 1]⟩ : PCol) ∈
      cleanCols 3 [⟨"AAA", [none, some 1, none]⟩] := by
    simp [cleanCols, padCol, ffillCol, bfillCol, ffillAux, List.range, List.range.loop,
      List.filter, List.getD]
  exact ⟨hmem, claim_C7_clean_no_missing 3 [⟨"AAA", [none, some 1, none]⟩] _ hmem⟩

/-- No value strictly exceeds itself (`x > x` is false for floats, including
NaN and the infinities). -/
theorem FV.gt_self (x : FV) : FV.gt x x = false := by
  cases x <;> simp [FV.gt]

/-- Claim C3: whenever the run completes with both returns computed, the
verdict is success exactly when the strategy return strictly exceeds the
benchmark return (for finite returns, the numeric strict order), an exact tie
yields a non-success verdict, and the reported outperformance is the
difference `strategy_return - benchmark_return`. -/
theorem claim_C3_verdict (tickers : List String) (t : Table) (s : List FV)
    (bench : Option (List FV)) (sr br : FV) (v : Bool) (d : FV)
    (h : backtestCore tickers t = .ok s bench sr (some br) (some v) (some d)) :
    v = sr.gt br ∧ (sr = br → v = false) ∧ d = sr.sub br ∧
    (∀ a b : ℚ, sr = .num a → br = .num b → ((v = true) ↔ b < a)) ∧
    (∀ a b : ℚ, sr = .num a → br = .num b → d = .num (a - b)) := by
  simp only [backtestCore] at h
  split at h
  · simp at h
  · split at h
    · simp at h
    · split at h
      · rw [Outcome.ok.injEq] at h
        obtain ⟨-, -, h3, h4, h5, h6⟩ := h
        rw [Option.some.injEq] at h4 h5 h6
        subst h3 h4 h5 h6
        refine ⟨rfl, ?_, rfl, ?_, ?_⟩
        · intro he
          rw [he]
          exact FV.gt_self _
        · intro a b ha hb
          rw [ha, hb, FV.gt_num_num]
          exact decide_eq_true_iff
        · intro a b ha hb
          rw [ha, hb, FV.sub_num_num]
      · simp at h

/-- Witness for Claim C3 at the single-candidate run `AAA = [100, 120]`,
benchmark `^NSEI = [100, 110]`: strategy return `20`, benchmark return `10`,
verdict success, outperformance `10`. -/
theorem claim_C3_verdict_witness :
    (true = (FV.num 20).gt (FV.num 10)) ∧
    ((true = true) ↔ ((10 : ℚ) < 20)) ∧
    (FV.num 10 = (FV.num 20).sub (FV.num 10)) := by
  have h : backtestCore ["AAA"]
      ⟨2, [⟨"AAA", [some 100, some 120]⟩, ⟨"^NSEI", [some 100, some 110]⟩]⟩ =
      .ok [.num 100, .num 120] (some [.num 100, .num 110]) (.num 20)
        (some (.num 10)) (some true) (some (.num 10)) := by
    norm_num +decide [backtestCore, cleanCols, padCol, ffillCol, bfillCol,
      ffillAux, normTable, normCol, lookupVals, strategySeries, fvMean,
      List.getLastD_cons, List.getLastD_nil, List.range, List.range.loop, List.getD]
  have hc := claim_C3_verdict ["AAA"] _ _ _ _ _ _ _ h
  refine ⟨hc.1, ?_, hc.2.2.1⟩
  have := hc.2.2.2.1 20 10 rfl rfl
  simpa using this

/-- The series `strategySeries` at a row index inside the window is the row mean over
the selected columns. -/
theorem strategySeries_getElem? (n i : ℕ) (sel : List (List FV)) (h : i < n) :
    (strategySeries n sel)[i]? = some (fvMean (sel.map (fun c => c.getD i FV.nan))) := by
  unfold strategySeries
  rw [List.getElem?_map, List.getElem?_range h]
  rfl

/-- On a row of finite values the skip-NaN mean is the plain arithmetic
mean. -/
theorem fvMean_map_num (qs : List ℚ) (h : qs ≠ []) :
    fvMean (qs.map FV.num) = FV.num (qs.sum / qs.length) := by
  have hfilter : (qs.map FV.num).filter (fun v => !v.isNan) = qs.map FV.num :=
    List.filter_eq_self.mpr (by
      intro a ha
      rcases List.mem_map.mp ha with ⟨q, -, rfl⟩
      simp)
  have hp : FV.pinf ∉ qs.map FV.num := by
    intro hmem
    rcases List.mem_map.mp hmem with ⟨q, -, hq⟩
    exact FV.noConfusion hq
  have hn : FV.ninf ∉ qs.map FV.num := by
    intro hmem
    rcases List.mem_map.mp hmem with ⟨q, -, hq⟩
    exact FV.noConfusion hq
  have hne : qs.map FV.num ≠ [] := by
    intro h'
    exact h (List.map_eq_nil_iff.mp h')
  simp only [fvMean, hfilter, if_neg hne, if_neg hp, if_neg hn]
  rw [List.map_map, List.length_map]
  congr 2
  have : FV.toRat ∘ FV.num = id := by
    funext q
    rfl
  rw [this, List.map_id]

/-- Claim C5: whenever the run reaches the simulation, the strategy series is
exactly the per-row mean over the normalized columns of the candidate
symbols present in the cleaned data (absent symbols are filtered out), the
row mean of finite values is the arithmetic mean, and the strategy return is
the last strategy value minus 100. -/
theorem claim_C5_strategy_mean (tickers : List String) (t : Table) (s : List FV)
    (bench : Option (List FV)) (sr : FV) (br : Option FV) (v : Option Bool)
    (d : Option FV)
    (h : backtestCore tickers t = .ok s bench sr br v d) :
    s = strategySeries t.nrows
        ((tickers.filter (fun sym =>
            (cleanCols t.nrows t.cols).any (fun c => c.sym == sym))).map
          (lookupVals (normTable (cleanCols t.nrows t.cols)))) ∧
    (∀ i, i < t.nrows →
      s[i]? = some (fvMean
        (((tickers.filter (fun sym =>
              (cleanCols t.nrows t.cols).any (fun c => c.sym == sym))).map
            (lookupVals (normTable (cleanCols t.nrows t.cols)))).map
          (fun c => c.getD i FV.nan)))) ∧
    sr = (s.getLastD FV.nan).sub (FV.num 100) ∧
    (∀ qs : List ℚ, qs ≠ [] → fvMean (qs.map FV.num) = FV.num (qs.sum / qs.length)) := by
  simp only [backtestCore] at h
  split at h
  · simp at h
  · split at h
    · simp at h
    · split at h <;>
      · rw [Outcome.ok.injEq] at h
        obtain ⟨h1, -, h3, -, -, -⟩ := h
        subst h1
        refine ⟨rfl, ?_, h3.symm, fun qs hqs => fvMean_map_num qs hqs⟩
        intro i hi
        exact strategySeries_getElem? t.nrows i _ hi

/-- Witness for Claim C5 at the one-candidate, one-row run `AAA = [4]`:
strategy series `[100]`, strategy return `0 = 100 - 100`, and the mean of
the single-entry row `[100]` is `100`. -/
theorem claim_C5_strategy_mean_witness :
    ([FV.num 100] : List FV) = strategySeries 1
        (((["AAA"] : List String).filter (fun sym =>
            (cleanCols 1 [⟨"AAA", [some 4]⟩]).any (fun c => c.sym == sym))).map
          (lookupVals (normTable (cleanCols 1 [⟨"AAA", [some 4]⟩])))) ∧
    FV.num 0 = (([FV.num 100] : List FV).getLastD FV.nan).sub (FV.num 100) ∧
    fvMean ([(100 : ℚ)].map FV.num) =
      FV.num (([(100 : ℚ)] : List ℚ).sum / ([(100 : ℚ)] : List ℚ).length) := by
  have h : backtestCore ["AAA"] ⟨1, [⟨"AAA", [some 4]⟩]⟩ =
      .ok [.num 100] none (.num 0) none none none := by
    norm_num +decide [backtestCore, cleanCols, padCol, ffillCol, bfillCol,
      ffillAux, normTable, normCol, lookupVals, strategySeries, fvMean,
      List.getLastD_cons, List.getLastD_nil, List.range, List.range.loop, List.getD]
  have hc := claim_C5_strategy_mean ["AAA"] ⟨1, [⟨"AAA", [some 4]⟩]⟩ _ _ _ _ _ _ h
  exact ⟨hc.1, hc.2.2.1, hc.2.2.2 [100] (by simp)⟩

/-- Claim C6: under both raw column shapes (flat and layered) the selector
prefers `Adj Close`, falls back to `Close` with the advisory flag set, and
yields no field when neither is present; in that last case the whole run
halts with the fatal `noPriceField` outcome (no chart is written), while any
selected field (advisory or not) lets the pipeline continue into the core
computation on that field's sub-table. -/
theorem claim_C6_price_field (fs : List String) (tickers : List String) (raw : RawData) :
    (("Adj Close" ∈ fs →
        targetColOf (.flat fs) = some ("Adj Close", false) ∧
        targetColOf (.layered fs) = some ("Adj Close", false)) ∧
     ("Adj Close" ∉ fs → "Close" ∈ fs →
        targetColOf (.flat fs) = some ("Close", true) ∧
        targetColOf (.layered fs) = some ("Close", true)) ∧
     ("Adj Close" ∉ fs → "Close" ∉ fs →
        targetColOf (.flat fs) = none ∧ targetColOf (.layered fs) = none) ∧
     (targetColOf (.flat fs) = selectPriceField fs ∧
      targetColOf (.layered fs) = selectPriceField fs)) ∧
    (tickers ≠ [] → raw.isEmpty = false → selectPriceField raw.colNames = none →
      run_backtest tickers (some raw) = .noPriceField ∧
      writesChart .noPriceField = false) ∧
    (∀ f adv, tickers ≠ [] → raw.isEmpty = false →
      selectPriceField raw.colNames = some (f, adv) →
      run_backtest tickers (some raw) =
        backtestCore tickers ⟨raw.nrows, fieldCols raw.fields f⟩) := by
  refine ⟨⟨?_, ?_, ?_, rfl, rfl⟩, ?_, ?_⟩
  · intro h
    constructor <;> simp [targetColOf, List.contains, List.elem_eq_mem, h]
  · intro h h'
    constructor <;> simp [targetColOf, List.contains, List.elem_eq_mem, h, h']
  · intro h h'
    constructor <;> simp [targetColOf, List.contains, List.elem_eq_mem, h, h']
  · intro ht hem hsel
    refine ⟨?_, rfl⟩
    rw [run_backtest, if_neg ht]
    simp only [hem, Bool.false_eq_true, if_false, hsel]
  · intro f adv ht hem hsel
    rw [run_backtest, if_neg ht]
    simp only [hem, Bool.false_eq_true, if_false, hsel]

/-- Witness for Claim C6: fields `["Close"]` select the fallback with the
advisory, and a table offering neither field aborts the run fatally. -/
theorem claim_C6_price_field_witness :
    targetColOf (.layered ["Close"]) = some ("Close", true) ∧
    run_backtest ["AAA"] (some ⟨1, [("Volume", [⟨"AAA", [some 5]⟩])]⟩) = .noPriceField := by
  have h1 := (claim_C6_price_field ["Close"] ["AAA"]
    ⟨1, [("Volume", [⟨"AAA", [some 5]⟩])]⟩).1.2.1 (by simp) (by simp)
  have h2 := (claim_C6_price_field ["Close"] ["AAA"]
    ⟨1, [("Volume", [⟨"AAA", [some 5]⟩])]⟩).2.1 (by simp) (by decide) (by decide)
  exact ⟨h1.2, h2.1⟩

/-- Claim C8: every fatal condition halts the pipeline at the stage that
detects it, with the matching abort outcome; a missing file or missing
ticker column surfaces as the empty ticker list, which aborts independently
of any fetch; and no abort outcome writes the chart or prints the results
report, while each carries a diagnostic message. -/
theorem claim_C8_fatal_aborts (load : CsvLoad) (fetched : Option RawData) :
    (load = .fileMissing → load_tickers load = []) ∧
    (∀ cols, load = .loaded cols → csvColumn cols "ticker" = none →
      csvColumn cols "Ticker" = none → load_tickers load = []) ∧
    (load_tickers load = [] →
      ∀ g : Option RawData, run_backtest (load_tickers load) g = .noTickers) ∧
    (load_tickers load ≠ [] → fetched = none →
      run_backtest (load_tickers load) fetched = .fetchError) ∧
    (∀ raw, load_tickers load ≠ [] → fetched = some raw → raw.isEmpty = true →
      run_backtest (load_tickers load) fetched = .emptyFetch) ∧
    (∀ raw, load_tickers load ≠ [] → fetched = some raw → raw.isEmpty = false →
      selectPriceField raw.colNames = none →
      run_backtest (load_tickers load) fetched = .noPriceField) ∧
    (∀ raw f adv, load_tickers load ≠ [] → fetched = some raw →
      raw.isEmpty = false → selectPriceField raw.colNames = some (f, adv) →
      (load_tickers load).filter (fun sym =>
        (cleanCols raw.nrows (fieldCols raw.fields f)).any (fun c => c.sym == sym)) = [] →
      run_backtest (load_tickers load) fetched = .noValidTickers) ∧
    (([Outcome.noTickers, .fetchError, .emptyFetch, .noPriceField, .normError,
        .noValidTickers].all
      (fun o => !(writesChart o) && !(printsReport o) && (diag o).isSome)) = true) := by
  refine ⟨?_, ?_, ?_, ?_, ?_, ?_, ?_, rfl⟩
  · intro h
    rw [h]
    rfl
  · intro cols h h1 h2
    rw [h]
    simp [load_tickers, h1, h2]
  · intro h g
    cases g <;> rw [run_backtest, if_pos h]
  · intro h hf
    subst hf
    rw [run_backtest, if_neg h]
  · intro raw h hf he
    subst hf
    rw [run_backtest, if_neg h]
    simp [he]
  · intro raw h hf he hsel
    subst hf
    rw [run_backtest, if_neg h]
    simp [he, hsel]
  · intro raw f adv h hf he hsel hvalid
    have hn0 : raw.nrows ≠ 0 := by
      intro h0
      rw [RawData.isEmpty, h0] at he
      simp at he
    subst hf
    rw [run_backtest, if_neg h]
    simp only [he, Bool.false_eq_true, if_false, hsel]
    simp only [backtestCore]
    rw [if_neg hn0, if_pos hvalid]

/-- Witness for Claim C8: a buy list without a ticker column loads empty and
aborts before the fetch; a non-empty list with a failed fetch aborts with
the fetch error; an empty fetch result aborts with the empty-fetch error;
and those aborts carry a diagnostic and write no chart. -/
theorem claim_C8_fatal_aborts_witness :
    load_tickers (.loaded [("x", ["AAA"])]) = [] ∧
    run_backtest [] (some ⟨1, [("Adj Close", [⟨"AAA", [some 5]⟩])]⟩) = .noTickers ∧
    run_backtest ["AAA"] none = .fetchError ∧
    run_backtest ["AAA"] (some ⟨0, []⟩) = .emptyFetch ∧
    writesChart .fetchError = false ∧ (diag .fetchError).isSome = true := by
  have h1 := (claim_C8_fatal_aborts (.loaded [("x", ["AAA"])]) none).2.1
    [("x", ["AAA"])] rfl (by decide) (by decide)
  have h2 := (claim_C8_fatal_aborts (.loaded [("x", ["AAA"])]) none).2.2.1 h1
    (some ⟨1, [("Adj Close", [⟨"AAA", [some 5]⟩])]⟩)
  rw [h1] at h2
  have h3 := (claim_C8_fatal_aborts (.loaded [("ticker", ["AAA"])]) none).2.2.2.1
    (by decide) rfl
  rw [show load_tickers (.loaded [("ticker", ["AAA"])]) = ["AAA"] from rfl] at h3
  have h4 := (claim_C8_fatal_aborts (.loaded [("ticker", ["AAA"])])
      (some ⟨0, []⟩)).2.2.2.2.1 ⟨0, []⟩ (by decide) rfl (by decide)
  rw [show load_tickers (.loaded [("ticker", ["AAA"])]) = ["AAA"] from rfl] at h4
  exact ⟨h1, h2, h3, h4, rfl, rfl⟩

/-! Splice lemmas for Claim C10: the benchmark column does not interfere
with the strategy computation. -/

theorem cleanCols_append (n : ℕ) (xs ys : List PCol) :
    cleanCols n (xs ++ ys) = cleanCols n xs ++ cleanCols n ys := by
  unfold cleanCols
  rw [List.map_append, List.filter_append, List.map_append]

theorem cleanCols_cons_middle (n : ℕ) (pre post : List PCol) (mid : PCol) :
    cleanCols n (pre ++ mid :: post) =
      cleanCols n pre ++ cleanCols n [mid] ++ cleanCols n post := by
  rw [show mid :: post = [mid] ++ post from rfl, cleanCols_append, cleanCols_append,
    List.append_assoc]

/-- Cleaning preserves column names: every cleaned column is named after one
of the input columns. -/
theorem sym_mem_of_mem_cleanCols (n : ℕ) (cols : List PCol) (c : PCol)
    (hc : c ∈ cleanCols n cols) : c.sym ∈ cols.map ColG.sym := by
  rcases List.mem_map.mp hc with ⟨c₀, hc₀, rfl⟩
  have h₁ : c₀ ∈ cols.map (padCol n) := List.mem_of_mem_filter hc₀
  rcases List.mem_map.mp h₁ with ⟨x, hx, rfl⟩
  exact List.mem_map.mpr ⟨x, hx, rfl⟩

theorem normTable_append (xs ys : List PCol) :
    normTable (xs ++ ys) = normTable xs ++ normTable ys := by
  unfold normTable
  rw [List.map_append]

theorem normTable_any_sym (m : List PCol) (s : String) :
    (normTable m).any (fun c => c.sym == s) = m.any (fun c => c.sym == s) := by
  unfold normTable
  induction m with
  | nil => rfl
  | cons c rest ih => simp only [List.map_cons, List.any_cons, ih]

theorem lookupVals_append (xs ys : List NCol) (s : String) :
    lookupVals (xs ++ ys) s =
      if xs.any (fun c => c.sym == s) then lookupVals xs s else lookupVals ys s := by
  induction xs with
  | nil => simp [lookupVals]
  | cons c rest ih =>
    by_cases h : (c.sym == s) = true
    · simp [lookupVals, h]
    · have h' : (c.sym == s) = false := by
        simpa using h
      simp [lookupVals, h', ih]

/-- No column of the cleaned benchmark-only sub-table matches a non-benchmark
name. -/
theorem any_sym_cleanCols_bench (n : ℕ) (b : List (Option ℚ)) (s : String)
    (hs : s ≠ "^NSEI") :
    (cleanCols n [⟨"^NSEI", b⟩]).any (fun c => c.sym == s) = false := by
  rw [List.any_eq_false]
  intro c hc
  have hmem := sym_mem_of_mem_cleanCols n _ c hc
  simp only [List.map_cons, List.map_nil, List.mem_singleton] at hmem
  rw [hmem]
  exact fun hb => hs (beq_iff_eq.mp hb).symm

/-- Presence of a non-benchmark symbol in the cleaned spliced table does not
depend on the benchmark column. -/
theorem any_sym_cleanCols_splice (n : ℕ) (pre post : List PCol)
    (b : List (Option ℚ)) (s : String) (hs : s ≠ "^NSEI") :
    (cleanCols n (pre ++ ⟨"^NSEI", b⟩ :: post)).any (fun c => c.sym == s) =
      ((cleanCols n pre).any (fun c => c.sym == s) ||
        (cleanCols n post).any (fun c => c.sym == s)) := by
  rw [cleanCols_cons_middle, List.any_append, List.any_append,
    any_sym_cleanCols_bench n b s hs, Bool.or_false]

/-- Lookup of a non-benchmark symbol in the normalized spliced table does not
depend on the benchmark column. -/
theorem lookupVals_splice (n : ℕ) (pre post : List PCol) (b : List (Option ℚ))
    (s : String) (hs : s ≠ "^NSEI") :
    lookupVals (normTable (cleanCols n (pre ++ ⟨"^NSEI", b⟩ :: post))) s =
      if (cleanCols n pre).any (fun c => c.sym == s)
      then lookupVals (normTable (cleanCols n pre)) s
      else lookupVals (normTable (cleanCols n post)) s := by
  rw [cleanCols_cons_middle, normTable_append, normTable_append,
    lookupVals_append, lookupVals_append, List.any_append,
    normTable_any_sym, normTable_any_sym,
    any_sym_cleanCols_bench n b s hs, Bool.or_false]
  by_cases h : (cleanCols n pre).any (fun c => c.sym == s) = true
  · rw [if_pos h, if_pos h, if_pos h]
  · rw [if_neg h, if_neg h]

/-- Claim C10: when the candidate list does not contain the benchmark symbol
`^NSEI`, the strategy series and the strategy return do not depend on the
benchmark column: two runs whose selected tables differ only in the values
of the `^NSEI` column produce the same strategy observables. -/
theorem claim_C10_benchmark_noninterference (tickers : List String)
    (hns : "^NSEI" ∉ tickers) (n : ℕ) (pre post : List PCol)
    (b1 b2 : List (Option ℚ)) :
    stratPart (backtestCore tickers ⟨n, pre ++ ⟨"^NSEI", b1⟩ :: post⟩) =
      stratPart (backtestCore tickers ⟨n, pre ++ ⟨"^NSEI", b2⟩ :: post⟩) := by
  have hvalid : tickers.filter (fun s =>
        (cleanCols n (pre ++ ⟨"^NSEI", b1⟩ :: post)).any (fun c => c.sym == s)) =
      tickers.filter (fun s =>
        (cleanCols n (pre ++ ⟨"^NSEI", b2⟩ :: post)).any (fun c => c.sym == s)) := by
    refine List.filter_congr ?_
    intro s hs
    have hne : s ≠ "^NSEI" := fun h => hns (h ▸ hs)
    rw [any_sym_cleanCols_splice n pre post b1 s hne,
      any_sym_cleanCols_splice n pre post b2 s hne]
  have hsel : (tickers.filter (fun s =>
        (cleanCols n (pre ++ ⟨"^NSEI", b1⟩ :: post)).any (fun c => c.sym == s))).map
        (lookupVals (normTable (cleanCols n (pre ++ ⟨"^NSEI", b1⟩ :: post)))) =
      (tickers.filter (fun s =>
        (cleanCols n (pre ++ ⟨"^NSEI", b2⟩ :: post)).any (fun c => c.sym == s))).map
        (lookupVals (normTable (cleanCols n (pre ++ ⟨"^NSEI", b2⟩ :: post)))) := by
    rw [← hvalid]
    refine List.map_congr_left ?_
    intro s hs
    have hmem : s ∈ tickers := List.mem_of_mem_filter hs
    have hne : s ≠ "^NSEI" := fun h => hns (h ▸ hmem)
    rw [lookupVals_splice n pre post b1 s hne, lookupVals_splice n pre post b2 s hne]
  simp only [backtestCore]
  by_cases hn0 : n = 0
  · simp [hn0]
  · simp only [if_neg hn0]
    rw [← hsel, ← hvalid]
    by_cases hv : tickers.filter (fun s =>
        (cleanCols n (pre ++ ⟨"^NSEI", b1⟩ :: post)).any (fun c => c.sym == s)) = []
    · rw [if_pos hv, if_pos hv]
    · rw [if_neg hv, if_neg hv]
      by_cases hb1 : (normTable (cleanCols n (pre ++ ⟨"^NSEI", b1⟩ :: post))).any
          (fun c => c.sym == "^NSEI") = true
      · rw [if_pos hb1]
        by_cases hb2 : (normTable (cleanCols n (pre ++ ⟨"^NSEI", b2⟩ :: post))).any
            (fun c => c.sym == "^NSEI") = true
        · rw [if_pos hb2]; rfl
        · rw [if_neg hb2]; rfl
      · rw [if_neg hb1]
        by_cases hb2 : (normTable (cleanCols n (pre ++ ⟨"^NSEI", b2⟩ :: post))).any
            (fun c => c.sym == "^NSEI") = true
        · rw [if_pos hb2]; rfl
        · rw [if_neg hb2]

/-- Witness for Claim C10: changing the benchmark history from `[1, 1]` to
`[2, 1]` leaves the strategy observables of the `AAA` run unchanged. -/
theorem claim_C10_benchmark_noninterference_witness :
    stratPart (backtestCore ["AAA"]
        ⟨2, [⟨"AAA", [some 1, some 2]⟩] ++ ⟨"^NSEI", [some 1, some 1]⟩ :: []⟩) =
      stratPart (backtestCore ["AAA"]
        ⟨2, [⟨"AAA", [some 1, some 2]⟩] ++ ⟨"^NSEI", [some 2, some 1]⟩ :: []⟩) :=
  claim_C10_benchmark_noninterference ["AAA"] (by simp) 2
    [⟨"AAA", [some 1, some 2]⟩] [] [some 1, some 1] [some 2, some 1]

/-- Witness for Claim C4 at the concrete column `AAA = [100, 110]`. -/
theorem claim_C4_normalization_base_100_witness :
    normCol [some 100, some 110] = [FV.num 100, FV.num (110 / 100 * 100)] ∧
    (⟨"AAA", [FV.num 100, FV.num (110 / 100 * 100)]⟩ : NCol) ∈
      normTable [⟨"AAA", [some 100, some 110]⟩] := by
  have h := claim_C4_normalization_base_100 [⟨"AAA", [some 100, some 110]⟩]
    ⟨"AAA", [some 100, some 110]⟩ (by simp) 100 [110] (by simp) (by norm_num)
  exact ⟨h.1, h.2⟩

end Backtest
